import Mathlib

/-!
Shallow embedding of the moderation and referral-attribution engine of the
MBolacrypto bot (src/database.py, src/enhanced_bot.py, src/multipurpose_bot.py,
src/bot.py).  SQLite tables are embedded as lists of row structures kept in the
order the engine scans them (the `users` table in rowid = `user_id` order, the
`referrals` table in insertion order).  Timestamps are naturals, the random
`uuid4` codes are explicit parameters, and the Telegram API success path is
assumed (the bot calls that can fail only guard cosmetic replies).
-/

namespace MBola

/-! ### Python string helpers

Python's `str.split` over a single-character separator, embedded over the
character list of the string so that it evaluates inside the kernel. -/

/-- `str.split(sep)` on the character list, accumulator-based. -/
def pySplitAux (sep : Char) : List Char → List Char → List (List Char)
  | [], acc => [acc.reverse]
  | c :: cs, acc =>
    if c = sep then acc.reverse :: pySplitAux sep cs []
    else pySplitAux sep cs (c :: acc)

/-- Python `code.split(sep)` (all occurrences). -/
def pySplit (sep : Char) (s : String) : List String :=
  (pySplitAux sep s.data []).map (fun cs => ⟨cs⟩)

/-- Auxiliary for `code.split(sep, 1)`: split at the first separator. -/
def pySplitOnceAux (sep : Char) : List Char → List Char → List Char × List Char
  | [], acc => (acc.reverse, [])
  | c :: cs, acc =>
    if c = sep then (acc.reverse, cs)
    else pySplitOnceAux sep cs (c :: acc)

/-- Python `code.split(sep, 1)` unpacked as `(left, right)`; only used on a
string known to contain the separator, as in `multipurpose_bot.start`. -/
def pySplitOnce (sep : Char) (s : String) : String × String :=
  let p := pySplitOnceAux sep s.data []
  (⟨p.1⟩, ⟨p.2⟩)

/-- Python `sep in code`. -/
def pyContains (sep : Char) (s : String) : Bool :=
  s.data.contains sep

/-- Splitting a string at its last separator occurrence, `none` when the
separator does not occur.  Input to the auxiliary is the reversed character
list. -/
def splitLastAux (sep : Char) : List Char → List Char → Option (List Char × List Char)
  | [], _ => none
  | c :: cs, acc =>
    if c = sep then some (cs.reverse, acc)
    else splitLastAux sep cs (c :: acc)

/-- Split at the last occurrence of the separator (the addressing rule the
spec describes for composite codes). -/
def splitLast (sep : Char) (s : String) : Option (String × String) :=
  match splitLastAux sep s.data.reverse [] with
  | some (l, r) => some (⟨l⟩, ⟨r⟩)
  | none => none

/-! ### Data model: the SQLite tables of `database.py` -/

/-- A row of the `users` table (`init_database`).  `joined_at`/`is_active` take
their defaults and are never consulted by the operations modelled here. -/
structure UserRow where
  user_id : Nat
  username : Option String
  first_name : Option String
  last_name : Option String
  referral_code : String
  referred_by : Option Nat
  deriving DecidableEq, Repr

/-- A row of the `referrals` table.  `created_at` carries the
`CURRENT_TIMESTAMP` default. -/
structure ReferralRow where
  referrer_id : Nat
  referred_id : Nat
  event_id : Option Nat
  created_at : Nat
  deriving DecidableEq, Repr

/-- A row of the `events` table. -/
structure EventRow where
  id : Nat
  event_code : String
  title : String
  host_id : Nat
  group_link : Option String
  is_active : Bool
  deriving DecidableEq, Repr

/-- A row of the `event_participants` table (`UNIQUE(event_id, user_id)`). -/
structure ParticipantRow where
  event_id : Nat
  user_id : Nat
  deriving DecidableEq, Repr

/-- The database state.  `users` is kept sorted by `user_id` (SQLite scans an
`INTEGER PRIMARY KEY` table in rowid order); `referrals`, `events` and
`event_participants` are in insertion (`AUTOINCREMENT`) order.  `clock` is the
value `CURRENT_TIMESTAMP` stamps on new rows. -/
structure DB where
  users : List UserRow
  referrals : List ReferralRow
  events : List EventRow
  event_participants : List ParticipantRow
  clock : Nat
  deriving DecidableEq, Repr

/-! ### `database.py` operations -/

/-- `INSERT OR REPLACE INTO users`: the conflicting row (same primary key) is
replaced in place, a fresh one enters at its rowid position. -/
def upsertUser : List UserRow → UserRow → List UserRow
  | [], row => [row]
  | u :: us, row =>
    if u.user_id = row.user_id then row :: us
    else if row.user_id < u.user_id then row :: u :: us
    else u :: upsertUser us row

/-- Python truthiness of an optional integer (`if referred_by:` is false for
both `None` and `0`). -/
def truthy : Option Nat → Bool
  | none => false
  | some n => n != 0

/-- `Database.get_user`. -/
def getUser (db : DB) (uid : Nat) : Option UserRow :=
  db.users.find? (fun u => u.user_id == uid)

/-- `Database.get_user_by_referral_code`. -/
def getUserByReferralCode (db : DB) (code : String) : Option UserRow :=
  db.users.find? (fun u => u.referral_code == code)

/-- Modelled from the spec: `Database.get_event_by_code` is called from
`enhanced_bot.py` (and `stable_bot.py`) but is not defined in
`src/database.py`.  Per the spec an event code is a globally unique short
token resolving to its event, and the query inlined in
`multipurpose_bot.start` (`SELECT id, group_link FROM events WHERE
event_code = ? AND is_active = 1`) additionally requires the event to be
active. -/
def getEventByCode (db : DB) (code : String) : Option EventRow :=
  db.events.find? (fun e => e.event_code == code && e.is_active)

/-- `Database.add_user`, lines 163-192 of `database.py`.  The random
`str(uuid.uuid4())[:8].upper()` is the explicit `freshCode` parameter.  The
users row is written with `INSERT OR REPLACE`; a referral edge is appended
(plain `INSERT`, no uniqueness constraint) when `referred_by` is truthy; the
participant row is `INSERT OR IGNORE` under `UNIQUE(event_id, user_id)` when
`event_id` is truthy. -/
def addUser (db : DB) (uid : Nat) (username first_name last_name : Option String)
    (referred_by : Option Nat) (event_id : Option Nat) (freshCode : String) :
    DB × String :=
  let row : UserRow :=
    ⟨uid, username, first_name, last_name, freshCode, referred_by⟩
  let db1 := { db with users := upsertUser db.users row }
  let db2 :=
    if truthy referred_by then
      { db1 with referrals :=
          db1.referrals ++ [⟨referred_by.getD 0, uid, event_id, db.clock⟩] }
    else db1
  let db3 :=
    if truthy event_id then
      if db2.event_participants.contains ⟨event_id.getD 0, uid⟩ then db2
      else { db2 with event_participants :=
              db2.event_participants ++ [⟨event_id.getD 0, uid⟩] }
    else db2
  (db3, freshCode)

/-- Count of referral edges with the given referrer (`COUNT(r.referred_id)`
grouped per user in `get_leaderboard`). -/
def referralCount (db : DB) (uid : Nat) : Nat :=
  (db.referrals.filter (fun r => r.referrer_id == uid)).length

/-- An output row of `get_leaderboard` / the per-event top-referrers query. -/
structure LBRow where
  user_id : Nat
  username : Option String
  first_name : Option String
  referral_count : Nat
  deriving DecidableEq, Repr

/-- The `ORDER BY referral_count DESC` key: `a` may precede `b` iff `b`'s
count is at most `a`'s. -/
def lbLE (a b : LBRow) : Prop :=
  b.referral_count ≤ a.referral_count

instance : DecidableRel lbLE := fun a b => Nat.decLe b.referral_count a.referral_count

instance : IsTotal LBRow lbLE :=
  ⟨fun a b => Nat.le_total b.referral_count a.referral_count⟩

instance : IsTrans LBRow lbLE :=
  ⟨fun _ _ _ h h' => Nat.le_trans h' h⟩

/-- `Database.get_leaderboard`, lines 276-298 of `database.py`:
`SELECT u.user_id, u.username, u.first_name, COUNT(r.referred_id) FROM users u
LEFT JOIN referrals r ON u.user_id = r.referrer_id GROUP BY ... ORDER BY
referral_count DESC LIMIT ?`.  The `LEFT JOIN` keeps users without edges
(count 0); the sort key is the count alone, embedded as a stable sort over
the table-scan (user_id) order. -/
def getLeaderboard (db : DB) (limit : Nat) : List LBRow :=
  ((db.users.map (fun u =>
      ⟨u.user_id, u.username, u.first_name, referralCount db u.user_id⟩)).insertionSort
    lbLE).take limit

/-- Count of referral edges with the given referrer tagged with the given
event (the `LEFT JOIN ... AND r.event_id = ?` of `get_event_stats`). -/
def eventReferralCount (db : DB) (eventId uid : Nat) : Nat :=
  (db.referrals.filter
    (fun r => r.referrer_id == uid && r.event_id == some eventId)).length

/-- The top-referrers query of `Database.get_event_stats`, lines 362-381 of
`database.py`: users joined with `event_participants` for the event, counted
over edges tagged with the event, `ORDER BY referral_count DESC LIMIT 10`.
No `created_at` bound appears anywhere in the query, and the `events` schema
has no `start_ts`/`end_ts` columns. -/
def topReferrers (db : DB) (eventId : Nat) : List LBRow :=
  (((db.users.filter (fun u =>
        db.event_participants.contains ⟨eventId, u.user_id⟩)).map (fun u =>
      ⟨u.user_id, u.username, u.first_name,
        eventReferralCount db eventId u.user_id⟩)).insertionSort lbLE).take 10

/-! ### Moderation: warning/strike escalation

`warn_command` (`multipurpose_bot.py` lines 1250-1293) together with
`Database.increment_warning`, `Database.add_strike` and
`Database.clear_warnings`.  The per-`(chat, user)` counters are the state;
the Telegram ban/restrict calls are modelled on their success path. -/

/-- Per-chat moderation settings (`group_settings` row as read by
`get_group_settings`). -/
structure GroupSettings where
  warn_threshold : Nat
  mute_minutes_default : Nat
  auto_ban_on_repeat : Bool
  strikes_reset_on_mute : Bool
  deriving DecidableEq, Repr

/-- The defaults `get_group_settings` materializes for an unknown chat
(threshold 3, mute 10 minutes, auto-ban on, reset-on-mute on). -/
def defaultGroupSettings : GroupSettings :=
  ⟨3, 10, true, true⟩

/-- The punitive outcome of a single warn. -/
inductive ModAction where
  | none
  | mute (minutes : Nat)
  | ban
  deriving DecidableEq, Repr

/-- The per-`(chat, user)` moderation counters: the `warnings.count` and
`user_violations.strikes` rows (0 when absent). -/
structure ModState where
  warnings : Nat
  strikes : Nat
  deriving DecidableEq, Repr

/-- One execution of `warn_command` past its permission checks: increment the
warning count (upsert), and if the returned count reaches the threshold, add
a strike and either ban (auto-ban enabled and at least two strikes; warnings
cleared) or mute for the default minutes (warnings cleared exactly when
`strikes_reset_on_mute`).  Returns the new state, the returned count, and the
action taken. -/
def warnStep (gs : GroupSettings) (st : ModState) : ModState × Nat × ModAction :=
  let count := st.warnings + 1
  if gs.warn_threshold ≤ count then
    let strikes := st.strikes + 1
    if gs.auto_ban_on_repeat ∧ 2 ≤ strikes then
      (⟨0, strikes⟩, count, .ban)
    else
      (⟨if gs.strikes_reset_on_mute then 0 else count, strikes⟩, count,
        .mute gs.mute_minutes_default)
  else
    (⟨count, st.strikes⟩, count, .none)

/-- `n` consecutive executions of `warn_command` on the same `(chat, user)`. -/
def warnSeq (gs : GroupSettings) (st : ModState) : Nat → ModState
  | 0 => st
  | n + 1 => (warnStep gs (warnSeq gs st n)).1

/-- Number of threshold breaches in a sequence of `n` warns: warns whose
returned count reaches the threshold. -/
def breachCount (gs : GroupSettings) (st : ModState) : Nat → Nat
  | 0 => 0
  | n + 1 =>
    breachCount gs st n +
      (if gs.warn_threshold ≤ (warnSeq gs st n).warnings + 1 then 1 else 0)

/-! ### Raid detection

`AntiRaid.check_raid` (`bot.py` lines 191-230).  The in-memory
`new_users[chat_id]` dict is an association list with Python-dict update
semantics (assigning an existing key keeps its position, a new key is
appended); values are join timestamps. -/

/-- The anti-raid settings consulted by `check_raid`. -/
structure RaidSettings where
  enabled : Bool
  time_window : Nat
  threshold : Nat
  action : String
  duration : Nat
  deriving DecidableEq, Repr

/-- The detection record `check_raid` returns when a raid is suspected. -/
structure RaidDetection where
  action : String
  duration : Nat
  users : List Nat
  count : Nat
  time_window : Nat
  deriving DecidableEq, Repr

/-- Python dict assignment `d[k] = v`: overwrite in place, else append. -/
def dictInsert (m : List (Nat × Nat)) (k v : Nat) : List (Nat × Nat) :=
  if m.any (fun p => p.1 == k) then
    m.map (fun p => if p.1 == k then (k, v) else p)
  else m ++ [(k, v)]

/-- The users whose recorded join time lies within the window of `now`
(`(current_time - join_time).total_seconds() <= time_window`), in dict
order.  Natural-number truncation agrees with the Python arithmetic: a
recorded time later than `now` yields a non-positive difference there and a
zero difference here, both within any window. -/
def recentUsers (window now : Nat) (m : List (Nat × Nat)) : List Nat :=
  (m.filter (fun p => now - p.2 ≤ window)).map (fun p => p.1)

/-- `AntiRaid.check_raid` for one chat: record the joining user at `now`,
then fire a detection carrying the action, duration and the full recent-user
list exactly when that list reaches the threshold.  Returns the updated join
map and the optional detection. -/
def checkRaid (s : RaidSettings) (m : List (Nat × Nat)) (uid now : Nat) :
    List (Nat × Nat) × Option RaidDetection :=
  if s.enabled then
    let m1 := dictInsert m uid now
    let recent := recentUsers s.time_window now m1
    if s.threshold ≤ recent.length then
      (m1, some ⟨s.action, s.duration, recent, recent.length, s.time_window⟩)
    else (m1, none)
  else (m, none)

/-! ### The `/start` registration flows

`ReferralBot.start` (`enhanced_bot.py` lines 94-210) and `start`
(`multipurpose_bot.py` lines 435-497).  Only the database effects and the
resolution of the argument are modelled; message text and keyboards are
cosmetic. -/

/-- How `ReferralBot.start` resolves its argument before registering. -/
inductive StartResolution where
  | eventJoin (e : EventRow)
  | referral (referred_by : Option Nat) (event_id : Option Nat)
  deriving DecidableEq, Repr

/-- The argument resolution of `ReferralBot.start` (`enhanced_bot.py` lines
106-135): first the whole argument as an event code (join prompt, early
return); else, when the argument contains an underscore, `code.split('_')`
must yield exactly two parts, the left resolved as a referral code and the
right as an event code, attribution only when both resolve and the referrer
is not the user; else a bare argument is resolved as a referral code. -/
def resolveStartArg (db : DB) (selfId : Nat) (arg : String) : StartResolution :=
  match getEventByCode db arg with
  | some e => .eventJoin e
  | none =>
    if pyContains '_' arg then
      match pySplit '_' arg with
      | [referralCode, eventCode] =>
        match getUserByReferralCode db referralCode, getEventByCode db eventCode with
        | some referrer, some e =>
          if referrer.user_id ≠ selfId then
            .referral (some referrer.user_id) (some e.id)
          else .referral none none
        | _, _ => .referral none none
      | _ => .referral none none
    else
      match getUserByReferralCode db arg with
      | some referrer =>
        if referrer.user_id ≠ selfId then .referral (some referrer.user_id) none
        else .referral none none
      | none => .referral none none

/-- The observable outcome of `ReferralBot.start`. -/
inductive StartOutcome where
  | eventJoinPrompt (eventId : Nat)
  | welcomed (code : String)
  | welcomedBack (code : String)
  deriving DecidableEq, Repr

/-- `ReferralBot.start`: resolve the argument; a whole-argument event match
only shows the join prompt (membership is written later, on the confirm
button) and returns; otherwise a user absent from `users` is registered via
`add_user` with the resolved attribution, and an existing user gets their
stored code back with no write. -/
def registerEnh (db : DB) (u : Nat) (username first_name last_name : Option String)
    (arg : Option String) (freshCode : String) : DB × StartOutcome :=
  let res :=
    match arg with
    | some a => resolveStartArg db u a
    | none => .referral none none
  match res with
  | .eventJoin e => (db, .eventJoinPrompt e.id)
  | .referral referred_by event_id =>
    match getUser db u with
    | some urow => (db, .welcomedBack urow.referral_code)
    | none =>
      let r := addUser db u username first_name last_name referred_by event_id freshCode
      (r.1, .welcomed r.2)

/-- The argument resolution of `start` in `multipurpose_bot.py` lines
445-453: when the argument contains an underscore, `code.split('_', 1)`
splits at the first underscore, the left part resolved as a referral code
(with no self check and no event-validity requirement), and the remainder
replaces the code; the (possibly replaced) code is then looked up as an
active event code.  A bare argument is never resolved as a referral code.
Returns `(referred_by_id, event_id)`. -/
def mpResolveStartArg (db : DB) (arg : String) : Option Nat × Option Nat :=
  let p :=
    if pyContains '_' arg then
      let lr := pySplitOnce '_' arg
      (match getUserByReferralCode db lr.1 with
       | some ru => some ru.user_id
       | none => none, lr.2)
    else ((none : Option Nat), arg)
  let event_id :=
    match db.events.find? (fun e => e.event_code == p.2 && e.is_active) with
    | some e => some e.id
    | none => none
  (p.1, event_id)

/-! ### Spec-side definitions for refinement comparisons -/

/-- The spec's composite-code addressing rule, stated as written there:
"resolution first splits on the last `_`, resolves the left part as a
referrer's personal code and the right part as an event code", attributing
only when both resolve (and not to oneself). -/
def specResolveComposite (db : DB) (selfId : Nat) (arg : String) :
    Option Nat × Option Nat :=
  match splitLast '_' arg with
  | some (l, r) =>
    match getUserByReferralCode db l, getEventByCode db r with
    | some referrer, some e =>
      if referrer.user_id ≠ selfId then (some referrer.user_id, some e.id)
      else (none, none)
    | _, _ => (none, none)
  | none => (none, none)

/-- Ordering on optional earliest-edge timestamps; the two-`some` case is the
tie-break the spec documents, and the cases the spec leaves unspecified (a
tied user with no edge at all) are taken as always allowed, which only
weakens the predicate being refuted. -/
def earliestLE : Option Nat → Option Nat → Prop
  | some a, some b => a ≤ b
  | _, _ => True

instance : DecidableRel earliestLE := fun a b =>
  match a, b with
  | some _, some _ => Nat.decLe _ _
  | some _, none => inferInstanceAs (Decidable True)
  | none, _ => inferInstanceAs (Decidable True)

/-- The earliest `created_at` among a user's referral edges. -/
def earliestEdge (db : DB) (uid : Nat) : Option Nat :=
  ((db.referrals.filter (fun r => r.referrer_id == uid)).map
    (fun r => r.created_at)).min?

/-- The ordering the spec claims for `get_leaderboard` rows: strictly larger
count first, ties broken by ascending earliest-edge timestamp. -/
def specLBOrdered (db : DB) (rows : List LBRow) : Prop :=
  rows.Pairwise (fun a b =>
    b.referral_count < a.referral_count ∨
      (a.referral_count = b.referral_count ∧
        earliestLE (earliestEdge db a.user_id) (earliestEdge db b.user_id)))

instance (db : DB) (rows : List LBRow) : Decidable (specLBOrdered db rows) := by
  unfold specLBOrdered
  infer_instance

/-- Modelled from the spec: the event-scoped leaderboard count restricted to
`created_at` within `[event.start_ts, event.end_ts or now]`.  The `events`
schema in `src/database.py` has no `start_ts`/`end_ts` columns, so the
window bounds are explicit parameters here. -/
def specEventWindowCount (db : DB) (eventId startTs : Nat) (endTs : Option Nat)
    (now : Nat) (uid : Nat) : Nat :=
  (db.referrals.filter (fun r =>
    r.referrer_id == uid && r.event_id == some eventId &&
      decide (startTs ≤ r.created_at) &&
      decide (r.created_at ≤ endTs.getD now))).length

/-- Number of referral edges for a given (referrer, referred, event) triple. -/
def edgeCount (db : DB) (referrer referred : Nat) (event_id : Option Nat) : Nat :=
  (db.referrals.filter (fun r =>
    r.referrer_id == referrer && r.referred_id == referred &&
      r.event_id == event_id)).length

/-! ### Concrete database states used by counterexamples and witnesses -/

/-- A store holding one registered user, id 7 with referral code `AAAAAAAA`. -/
def dbC1 : DB :=
  ⟨[⟨7, none, some "Alice", none, "AAAAAAAA", none⟩], [], [], [], 0⟩

/-- A store holding one registered referrer, id 1 with code `REFCODE1`. -/
def dbC2w : DB :=
  ⟨[⟨1, none, none, none, "REFCODE1", none⟩], [], [], [], 3⟩

/-- A store holding one registered user, id 7 with referral code `SELFCODE`. -/
def dbC3 : DB :=
  ⟨[⟨7, none, none, none, "SELFCODE", none⟩], [], [], [], 0⟩

/-- A store holding one registered referrer, id 1 with code `REFCODE9`. -/
def dbC3w : DB :=
  ⟨[⟨1, none, none, none, "REFCODE9", none⟩], [], [], [], 4⟩

/-- A store where user 1 owns referral code `A` and event 5 has code `C`. -/
def dbC7 : DB :=
  ⟨[⟨1, none, none, none, "A", none⟩], [], [⟨5, "C", "t", 1, none, true⟩], [], 0⟩

/-- The spec's composite-resolution scenario: user 1 owns `ABC123`, the
active event 1 has code `EVT001`. -/
def dbC7w : DB :=
  ⟨[⟨1, none, none, none, "ABC123", none⟩], [],
    [⟨1, "EVT001", "t", 1, none, true⟩], [], 0⟩

/-- Two users with one referral edge each (a count tie); user 2's edge is
older (`created_at` 5) than user 1's (`created_at` 10). -/
def dbC8 : DB :=
  ⟨[⟨1, none, none, none, "X1", none⟩, ⟨2, none, none, none, "X2", none⟩],
    [⟨1, 3, none, 10⟩, ⟨2, 4, none, 5⟩], [], [], 20⟩

/-- Event 5 with participant 1, and one referral edge tagged with event 5
whose `created_at` (0) precedes any plausible event start. -/
def dbC9 : DB :=
  ⟨[⟨1, none, none, none, "X1", none⟩, ⟨2, none, none, none, "X2", none⟩],
    [⟨1, 2, some 5, 0⟩], [⟨5, "E", "t", 1, none, true⟩], [⟨5, 1⟩], 100⟩

/-- Two users, only user 1 has referral edges. -/
def dbC10w : DB :=
  ⟨[⟨1, none, none, none, "Y1", none⟩, ⟨2, none, none, none, "Y2", none⟩],
    [⟨1, 3, none, 7⟩], [], [], 9⟩

/-! ### Theorems -/

/-- C1, counterexample.  `Database.add_user` called again for the already
registered user 7 is not a no-op: the stored row changes (the referral code
is regenerated) and the returned code is the fresh one, not the stored
`AAAAAAAA`. -/
theorem addUser_reregister_changes_row :
    (addUser dbC1 7 none (some "Alice") none none none "BBBBBBBB").2 = "BBBBBBBB" ∧
    "BBBBBBBB" ≠ "AAAAAAAA" ∧
    getUser (addUser dbC1 7 none (some "Alice") none none none "BBBBBBBB").1 7 ≠
      getUser dbC1 7 := by
  decide

/-- C3, counterexample.  Self-referral is not rejected with a
`ValidationError` (no such error exists in the code): user 7 starting with
their own code gets the ordinary welcome-back outcome, and `Database.add_user`
itself, called with `referred_by` equal to the user, inserts a self-edge into
the referrals table. -/
theorem self_referral_not_validation_error :
    registerEnh dbC3 7 none none none (some "SELFCODE") "NEWCODE1" =
      (dbC3, .welcomedBack "SELFCODE") ∧
    (addUser dbC3 7 none none none (some 7) none "NEWCODE1").1.referrals =
      [⟨7, 7, none, 0⟩] := by
  decide

/-- C7, counterexample.  On the argument `A_B_C`, the spec's rule splits at
the last underscore into `A_B` and `C`, and `A_B` is nobody's referral code,
so no referrer is attributed; but `multipurpose_bot.start` splits at the
first underscore and attributes referrer 1 (owner of `A`) with no event,
while `enhanced_bot.start` performs no composite resolution at all.  A bare
referral code `A` is attributed by the spec's rule yet ignored by
`multipurpose_bot.start`. -/
theorem start_arg_not_split_on_last_underscore :
    mpResolveStartArg dbC7 "A_B_C" = (some 1, none) ∧
    splitLast '_' "A_B_C" = some ("A_B", "C") ∧
    getUserByReferralCode dbC7 "A_B" = none ∧
    specResolveComposite dbC7 99 "A_B_C" = (none, none) ∧
    resolveStartArg dbC7 99 "A_B_C" = .referral none none ∧
    mpResolveStartArg dbC7 "A" = (none, none) := by
  decide

/-- C8, counterexample.  With a count tie where user 2's earliest edge
(timestamp 5) precedes user 1's (timestamp 10), `get_leaderboard` (whose
query orders by the count alone) still lists user 1 first: the output is not
ordered by the spec's tie-break. -/
theorem getLeaderboard_no_timestamp_tiebreak :
    getLeaderboard dbC8 10 = [⟨1, none, none, 1⟩, ⟨2, none, none, 1⟩] ∧
    earliestEdge dbC8 2 = some 5 ∧
    earliestEdge dbC8 1 = some 10 ∧
    ¬ specLBOrdered dbC8 (getLeaderboard dbC8 10) := by
  decide

/-- C9, counterexample.  The edge tagged with event 5 was created at time 0;
with any window starting later (here start 10, end open, now 100) the spec
count excludes it, yet `get_event_stats` counts it and ranks participant 1
with count 1. -/
theorem eventCount_ignores_window :
    eventReferralCount dbC9 5 1 = 1 ∧
    specEventWindowCount dbC9 5 10 none 100 1 = 0 ∧
    (topReferrers dbC9 5).map (fun r => (r.user_id, r.referral_count)) = [(1, 1)] := by
  decide

/-- C4.  When a warn brings the count to the threshold, a strike is added;
with auto-ban set and the resulting strike count at least 2 the outcome is
Ban and the warnings are cleared; otherwise the outcome is Mute for the
default minutes, warnings are cleared exactly when `strikes_reset_on_mute`
is set, and the strike count is not touched beyond the single increment. -/
theorem warnStep_escalation (gs : GroupSettings) (st : ModState)
    (h : gs.warn_threshold ≤ st.warnings + 1) :
    (warnStep gs st).2.1 = st.warnings + 1 ∧
    (warnStep gs st).1.strikes = st.strikes + 1 ∧
    (gs.auto_ban_on_repeat = true ∧ 2 ≤ st.strikes + 1 →
      (warnStep gs st).2.2 = .ban ∧ (warnStep gs st).1.warnings = 0) ∧
    (¬ (gs.auto_ban_on_repeat = true ∧ 2 ≤ st.strikes + 1) →
      (warnStep gs st).2.2 = .mute gs.mute_minutes_default ∧
      ((warnStep gs st).1.warnings = 0 ↔ gs.strikes_reset_on_mute = true)) := by
  unfold warnStep
  rw [if_pos h]
  by_cases hb : gs.auto_ban_on_repeat = true ∧ 2 ≤ st.strikes + 1
  · simp [hb]
  · rw [if_neg hb]
    refine ⟨rfl, rfl, fun hc => absurd hc hb, fun _ => ⟨rfl, ?_⟩⟩
    by_cases hr : gs.strikes_reset_on_mute = true <;> simp [hr]

/-- C4, witness: the spec's escalation scenario at threshold 3 with auto-ban
on.  The third warn on a clean user mutes for the default 10 minutes and
clears warnings; a warn that brings a one-strike user to the threshold
again bans. -/
theorem warnStep_escalation_witness :
    (warnStep defaultGroupSettings ⟨2, 0⟩).2.2 = .mute 10 ∧
    (warnStep defaultGroupSettings ⟨2, 0⟩).1.warnings = 0 ∧
    (warnStep defaultGroupSettings ⟨2, 1⟩).2.2 = .ban ∧
    (warnStep defaultGroupSettings ⟨2, 1⟩).1.warnings = 0 := by
  have hmute := warnStep_escalation defaultGroupSettings ⟨2, 0⟩ (by decide)
  have hban := warnStep_escalation defaultGroupSettings ⟨2, 1⟩ (by decide)
  have h1 := hmute.2.2.2 (by decide)
  have h2 := hban.2.2.1 (by decide)
  refine ⟨by simpa [defaultGroupSettings] using h1.1, ?_, h2.1, h2.2⟩
  exact h1.2.mpr (by decide)

/-- The strike counter after one warn: incremented exactly when the returned
count reaches the threshold. -/
theorem warnStep_strikes (gs : GroupSettings) (st : ModState) :
    (warnStep gs st).1.strikes =
      if gs.warn_threshold ≤ st.warnings + 1 then st.strikes + 1 else st.strikes := by
  unfold warnStep
  by_cases h : gs.warn_threshold ≤ st.warnings + 1
  · rw [if_pos h, if_pos h]
    by_cases hb : gs.auto_ban_on_repeat = true ∧ 2 ≤ st.strikes + 1
    · rw [if_pos hb]
    · rw [if_neg hb]
  · rw [if_neg h, if_neg h]

/-- C5.  Each threshold breach (a warn whose returned count reaches the
threshold) adds exactly one strike and issues exactly one of Mute or Ban,
never both; a warn below the threshold adds no strike and no action; and
over any sequence of warns the strike counter grows by exactly the number
of breaches, one per breach. -/
theorem warnStep_one_strike_per_breach :
    (∀ (gs : GroupSettings) (st : ModState), gs.warn_threshold ≤ st.warnings + 1 →
      (warnStep gs st).1.strikes = st.strikes + 1 ∧
      ((warnStep gs st).2.2 = .ban ∨
        (warnStep gs st).2.2 = .mute gs.mute_minutes_default) ∧
      ¬ ((warnStep gs st).2.2 = .ban ∧
        (warnStep gs st).2.2 = .mute gs.mute_minutes_default)) ∧
    (∀ (gs : GroupSettings) (st : ModState), st.warnings + 1 < gs.warn_threshold →
      (warnStep gs st).1.strikes = st.strikes ∧ (warnStep gs st).2.2 = .none) ∧
    (∀ (gs : GroupSettings) (st : ModState) (n : Nat),
      (warnSeq gs st n).strikes = st.strikes + breachCount gs st n) := by
  refine ⟨fun gs st h => ?_, fun gs st h => ?_, fun gs st n => ?_⟩
  · refine ⟨by rw [warnStep_strikes, if_pos h], ?_⟩
    unfold warnStep
    rw [if_pos h]
    by_cases hb : gs.auto_ban_on_repeat = true ∧ 2 ≤ st.strikes + 1
    · rw [if_pos hb]
      simp
    · rw [if_neg hb]
      simp
  · refine ⟨by rw [warnStep_strikes, if_neg (by omega)], ?_⟩
    unfold warnStep
    rw [if_neg (by omega)]
  · induction n with
    | zero => simp [warnSeq, breachCount]
    | succ n ih =>
      show (warnStep gs (warnSeq gs st n)).1.strikes = _
      rw [warnStep_strikes]
      unfold breachCount
      by_cases h : gs.warn_threshold ≤ (warnSeq gs st n).warnings + 1
      · rw [if_pos h, if_pos h]
        omega
      · rw [if_neg h, if_neg h]
        omega

/-- C5, witness: six warns at the default settings (threshold 3) on a clean
user contain exactly two breaches and leave exactly two strikes, and the
third warn both strikes and mutes. -/
theorem warnStep_one_strike_per_breach_witness :
    (warnSeq defaultGroupSettings ⟨0, 0⟩ 6).strikes = 0 + breachCount defaultGroupSettings ⟨0, 0⟩ 6 ∧
    breachCount defaultGroupSettings ⟨0, 0⟩ 6 = 2 ∧
    (warnStep defaultGroupSettings ⟨2, 0⟩).1.strikes = 0 + 1 := by
  refine ⟨warnStep_one_strike_per_breach.2.2 defaultGroupSettings ⟨0, 0⟩ 6, by decide, ?_⟩
  exact (warnStep_one_strike_per_breach.1 defaultGroupSettings ⟨2, 0⟩ (by decide)).1

/-- Python dict assignment always leaves the assigned pair in the map. -/
theorem dictInsert_mem (m : List (Nat × Nat)) (k v : Nat) :
    (k, v) ∈ dictInsert m k v := by
  unfold dictInsert
  by_cases h : m.any (fun p => p.1 == k)
  · rw [if_pos h]
    obtain ⟨p, hp, hpk⟩ := List.any_eq_true.mp h
    refine List.mem_map.mpr ⟨p, hp, ?_⟩
    rw [if_pos hpk]
  · rw [if_neg h]
    exact List.mem_append_right m (List.mem_singleton_self _)

/-- C6.  `check_raid` on an enabled chat records the joining user at the
current time (last timestamp wins per user), and returns a detection holding
the action, the duration and the full recent-user list (which contains the
just-joined user) exactly when that list reaches the threshold; with window
60 and threshold 3, joins A=1 at 0, B=2 at 10, C=3 at 20 fire on C with
users [1, 2, 3], and a fourth join D=4 at 70 fires again with users
[2, 3, 4] (user 1 excluded since 70 - 0 > 60, user 2 kept since
70 - 10 = 60 ≤ 60). -/
theorem checkRaid_sliding_window :
    (∀ (s : RaidSettings) (m : List (Nat × Nat)) (uid now : Nat),
      s.enabled = true →
      uid ∈ recentUsers s.time_window now (dictInsert m uid now) ∧
      checkRaid s m uid now =
        (dictInsert m uid now,
          if s.threshold ≤ (recentUsers s.time_window now (dictInsert m uid now)).length then
            some ⟨s.action, s.duration,
              recentUsers s.time_window now (dictInsert m uid now),
              (recentUsers s.time_window now (dictInsert m uid now)).length,
              s.time_window⟩
          else none)) ∧
    (checkRaid ⟨true, 60, 3, "mute", 3600⟩ [] 1 0 = ([(1, 0)], none) ∧
      checkRaid ⟨true, 60, 3, "mute", 3600⟩ [(1, 0)] 2 10 =
        ([(1, 0), (2, 10)], none) ∧
      checkRaid ⟨true, 60, 3, "mute", 3600⟩ [(1, 0), (2, 10)] 3 20 =
        ([(1, 0), (2, 10), (3, 20)], some ⟨"mute", 3600, [1, 2, 3], 3, 60⟩) ∧
      checkRaid ⟨true, 60, 3, "mute", 3600⟩ [(1, 0), (2, 10), (3, 20)] 4 70 =
        ([(1, 0), (2, 10), (3, 20), (4, 70)],
          some ⟨"mute", 3600, [2, 3, 4], 3, 60⟩)) := by
  refine ⟨fun s m uid now hs => ⟨?_, ?_⟩, by decide, by decide, by decide, by decide⟩
  · unfold recentUsers
    refine List.mem_map.mpr ⟨(uid, now), List.mem_filter.mpr ⟨dictInsert_mem m uid now, ?_⟩, rfl⟩
    simp
  · unfold checkRaid
    rw [if_pos hs]
    by_cases hc : s.threshold ≤ (recentUsers s.time_window now (dictInsert m uid now)).length
    · rw [if_pos hc, if_pos hc]
    · rw [if_neg hc, if_neg hc]

/-- C6, witness: the general characterization applied to C's join in the
spec scenario evaluates to the fired detection with users [1, 2, 3]. -/
theorem checkRaid_sliding_window_witness :
    checkRaid ⟨true, 60, 3, "mute", 3600⟩ [(1, 0), (2, 10)] 3 20 =
      ([(1, 0), (2, 10), (3, 20)], some ⟨"mute", 3600, [1, 2, 3], 3, 60⟩) ∧
    (3 : Nat) ∈ recentUsers 60 20 (dictInsert [(1, 0), (2, 10)] 3 20) := by
  have h := checkRaid_sliding_window.1 ⟨true, 60, 3, "mute", 3600⟩ [(1, 0), (2, 10)] 3 20 rfl
  refine ⟨?_, h.1⟩
  rw [h.2]
  decide

/-- C8, amended.  `get_leaderboard` output is sorted by descending referral
count (each row's count at least the next row's); the query specifies no
further key, so tie order is the engine's scan order, not the edge
timestamps. -/
theorem getLeaderboard_sorted_desc (db : DB) (limit : Nat) :
    (getLeaderboard db limit).Pairwise lbLE := by
  unfold getLeaderboard
  exact (List.sorted_insertionSort lbLE _).sublist (List.take_sublist _ _)

/-- C9, amended.  The event-scoped referral count of `get_event_stats`
depends only on the edges' referrer and event tag: rewriting every edge's
`created_at` arbitrarily leaves every count unchanged, so no time window
restricts it. -/
theorem eventReferralCount_created_at_invariant (db : DB) (e u : Nat)
    (f : ReferralRow → Nat) :
    eventReferralCount
      { db with referrals := db.referrals.map (fun r => { r with created_at := f r }) }
      e u = eventReferralCount db e u := by
  unfold eventReferralCount
  rw [List.filter_map, List.length_map]
  rfl

/-- C10.  `get_leaderboard` ranges over all registered users: a user with no
referral edges still yields a row with count 0 whenever the limit covers the
user count. -/
theorem getLeaderboard_includes_zero_referrers (db : DB) (limit : Nat)
    (u : UserRow) (hu : u ∈ db.users)
    (hno : ∀ r ∈ db.referrals, r.referrer_id ≠ u.user_id)
    (hlim : db.users.length ≤ limit) :
    (⟨u.user_id, u.username, u.first_name, 0⟩ : LBRow) ∈ getLeaderboard db limit := by
  have hcount : referralCount db u.user_id = 0 := by
    unfold referralCount
    rw [List.length_eq_zero, List.filter_eq_nil_iff]
    intro r hr
    simpa using hno r hr
  unfold getLeaderboard
  have hlen : ((db.users.map (fun w =>
      (⟨w.user_id, w.username, w.first_name, referralCount db w.user_id⟩ : LBRow))).insertionSort
        lbLE).length = db.users.length := by
    rw [(List.perm_insertionSort lbLE _).length_eq, List.length_map]
  rw [List.take_of_length_le (by rw [hlen]; exact hlim)]
  refine (List.perm_insertionSort lbLE _).mem_iff.mpr ?_
  rw [← hcount]
  exact List.mem_map_of_mem _ hu

/-- C10, witness: in a store with users 1 and 2 where only user 1 refers,
user 2 still appears on the leaderboard with count 0. -/
theorem getLeaderboard_includes_zero_referrers_witness :
    (⟨2, none, none, 0⟩ : LBRow) ∈ getLeaderboard dbC10w 10 := by
  have h := getLeaderboard_includes_zero_referrers dbC10w 10
    ⟨2, none, none, none, "Y2", none⟩ (by decide) (by decide) (by decide)
  simpa using h

/-- After `INSERT OR REPLACE`, looking the key up finds the fresh row. -/
theorem upsertUser_find (l : List UserRow) (row : UserRow) :
    (upsertUser l row).find? (fun u => u.user_id == row.user_id) = some row := by
  induction l with
  | nil => simp [upsertUser, List.find?]
  | cons u us ih =>
    unfold upsertUser
    by_cases h : u.user_id = row.user_id
    · rw [if_pos h]
      simp [List.find?]
    · rw [if_neg h]
      by_cases h2 : row.user_id < u.user_id
      · rw [if_pos h2]
        simp [List.find?]
      · rw [if_neg h2]
        rw [List.find?_cons_of_neg _ (by simpa using h)]
        exact ih

/-- `add_user` leaves the `events` table alone. -/
theorem addUser_events (db : DB) (uid : Nat) (un fn ln : Option String)
    (rb ei : Option Nat) (f : String) :
    (addUser db uid un fn ln rb ei f).1.events = db.events := by
  unfold addUser
  by_cases h1 : truthy rb = true <;> by_cases h2 : truthy ei = true <;>
    simp [h1, h2] <;> split <;> rfl

/-- `add_user` writes the fresh row at the user's key. -/
theorem addUser_users (db : DB) (uid : Nat) (un fn ln : Option String)
    (rb ei : Option Nat) (f : String) :
    (addUser db uid un fn ln rb ei f).1.users =
      upsertUser db.users ⟨uid, un, fn, ln, f, rb⟩ := by
  unfold addUser
  by_cases h1 : truthy rb = true <;> by_cases h2 : truthy ei = true <;>
    simp [h1, h2] <;> split <;> rfl

/-- `add_user` appends exactly one referral edge when `referred_by` is
truthy and none otherwise. -/
theorem addUser_referrals (db : DB) (uid : Nat) (un fn ln : Option String)
    (rb ei : Option Nat) (f : String) :
    (addUser db uid un fn ln rb ei f).1.referrals =
      if truthy rb then db.referrals ++ [⟨rb.getD 0, uid, ei, db.clock⟩]
      else db.referrals := by
  unfold addUser
  by_cases h1 : truthy rb = true <;> by_cases h2 : truthy ei = true <;>
    simp [h1, h2] <;> split <;> rfl

/-- After `add_user`, the user is present with exactly the written row. -/
theorem getUser_addUser (db : DB) (uid : Nat) (un fn ln : Option String)
    (rb ei : Option Nat) (f : String) :
    getUser (addUser db uid un fn ln rb ei f).1 uid = some ⟨uid, un, fn, ln, f, rb⟩ := by
  unfold getUser
  rw [addUser_users]
  exact upsertUser_find db.users ⟨uid, un, fn, ln, f, rb⟩

/-- A `referral` resolution implies the whole argument was no event code. -/
theorem resolveStartArg_referral_getEvent (db : DB) (selfId : Nat) (a : String)
    (rb ei : Option Nat) (h : resolveStartArg db selfId a = .referral rb ei) :
    getEventByCode db a = none := by
  unfold resolveStartArg at h
  cases hev : getEventByCode db a with
  | some e =>
    rw [hev] at h
    simp at h
  | none => rfl

/-- When the whole argument is no event code, resolution yields a referral
outcome (never the event-join early return). -/
theorem resolveStartArg_not_eventJoin (db : DB) (selfId : Nat) (a : String)
    (h : getEventByCode db a = none) :
    ∃ rb ei, resolveStartArg db selfId a = .referral rb ei := by
  unfold resolveStartArg
  rw [h]
  repeat' split
  all_goals first
    | exact ⟨_, _, rfl⟩
    | simp_all

/-- Resolution never attributes the user to themself. -/
theorem resolveStartArg_referrer_ne (db : DB) (selfId : Nat) (a : String)
    (n : Nat) (ei : Option Nat)
    (h : resolveStartArg db selfId a = .referral (some n) ei) : n ≠ selfId := by
  unfold resolveStartArg at h
  repeat' split at h
  all_goals simp_all

/-- The referrals table after `ReferralBot.start`: unchanged, or extended by
exactly one edge pointing at the starting user from somebody else. -/
theorem registerEnh_referrals (db : DB) (u : Nat) (un fn ln : Option String)
    (arg : Option String) (f : String) :
    (registerEnh db u un fn ln arg f).1.referrals = db.referrals ∨
    ∃ rb ei, rb ≠ u ∧
      (registerEnh db u un fn ln arg f).1.referrals =
        db.referrals ++ [⟨rb, u, ei, db.clock⟩] := by
  unfold registerEnh
  cases arg with
  | none =>
    cases hu : getUser db u with
    | some urow => simp [hu]
    | none => simp [hu, addUser_referrals, truthy]
  | some a =>
    cases hres : resolveStartArg db u a with
    | eventJoin e => simp [hres]
    | referral rb ei =>
      cases hu : getUser db u with
      | some urow => simp [hres, hu]
      | none =>
        simp only [hres, hu, addUser_referrals]
        cases rb with
        | none => simp [truthy]
        | some n =>
          by_cases hn : n = 0
          · simp [truthy, hn]
          · right
            refine ⟨n, ei, resolveStartArg_referrer_ne db u a n ei hres, ?_⟩
            simp [truthy, hn]

/-- The users and events tables seen by a second `/start` of the same user:
the state after the first call has the user present and the events
unchanged, so the second call writes nothing. -/
theorem registerEnh_state_idem (db : DB) (u : Nat) (un fn ln : Option String)
    (arg : Option String) (f f' : String) :
    (registerEnh (registerEnh db u un fn ln arg f).1 u un fn ln arg f').1 =
      (registerEnh db u un fn ln arg f).1 := by
  cases arg with
  | none =>
    cases hu : getUser db u with
    | some urow => simp [registerEnh, hu]
    | none =>
      simp only [registerEnh]
      simp only [hu]
      rw [getUser_addUser]
  | some a =>
    cases hres : resolveStartArg db u a with
    | eventJoin e =>
      simp [registerEnh, hres]
    | referral rb ei =>
      cases hu : getUser db u with
      | some urow => simp [registerEnh, hres, hu]
      | none =>
        have hev : getEventByCode db a = none :=
          resolveStartArg_referral_getEvent db u a rb ei hres
        simp only [registerEnh, hres, hu]
        have hev1 : getEventByCode (addUser db u un fn ln rb ei f).1 a = none := by
          unfold getEventByCode
          rw [addUser_events]
          exact hev
        obtain ⟨rb', ei', hres1⟩ :=
          resolveStartArg_not_eventJoin (addUser db u un fn ln rb ei f).1 u a hev1
        simp only [hres1]
        rw [getUser_addUser]

/-- C1, amended.  The register flow (`ReferralBot.start`) is idempotent on
existing users: it consults `get_user` before writing, so for a user already
present it leaves the state unchanged, never takes the new-registration
outcome, and any code it shows is the stored one.  (`Database.add_user`
itself is not idempotent — see the counterexample.) -/
theorem registerEnh_existing_user_noop (db : DB) (u : Nat)
    (un fn ln : Option String) (arg : Option String) (f : String)
    (urow : UserRow) (hu : getUser db u = some urow) :
    (registerEnh db u un fn ln arg f).1 = db ∧
    (∀ c, (registerEnh db u un fn ln arg f).2 ≠ .welcomed c) ∧
    (∀ c, (registerEnh db u un fn ln arg f).2 = .welcomedBack c →
      c = urow.referral_code) := by
  unfold registerEnh
  cases arg with
  | none => simp [hu]
  | some a =>
    cases hres : resolveStartArg db u a with
    | eventJoin e => simp [hres]
    | referral rb ei => simp [hres, hu]

/-- C1, witness: re-starting the registered user 7 leaves the store
unchanged and does not register, and the shown code is the stored
`AAAAAAAA`, not the fresh `CCCCCCCC`. -/
theorem registerEnh_existing_user_noop_witness :
    (registerEnh dbC1 7 none (some "Alice") none none "CCCCCCCC").1 = dbC1 ∧
    (registerEnh dbC1 7 none (some "Alice") none none "CCCCCCCC").2 ≠
      .welcomed "CCCCCCCC" ∧
    (∀ c, (registerEnh dbC1 7 none (some "Alice") none none "CCCCCCCC").2 =
      .welcomedBack c → c = "AAAAAAAA") := by
  have h := registerEnh_existing_user_noop dbC1 7 none (some "Alice") none none
    "CCCCCCCC" ⟨7, none, some "Alice", none, "AAAAAAAA", none⟩ (by decide)
  exact ⟨h.1, h.2.1 "CCCCCCCC", h.2.2⟩

/-- C2.  Registration is write-once per (user, referred_by, event): running
the `/start` flow twice with the same arguments is a no-op the second time
(the flow finds the user present and writes nothing, without error), and
starting from a state with no edge for a triple, at most one edge for it
exists afterwards. -/
theorem registerEnh_write_once :
    (∀ (db : DB) (u : Nat) (un fn ln : Option String) (arg : Option String)
        (f f' : String),
      (registerEnh (registerEnh db u un fn ln arg f).1 u un fn ln arg f').1 =
        (registerEnh db u un fn ln arg f).1) ∧
    (∀ (db : DB) (u : Nat) (un fn ln : Option String) (arg : Option String)
        (f f' : String) (rid : Nat) (ei : Option Nat),
      edgeCount db rid u ei = 0 →
      edgeCount
        (registerEnh (registerEnh db u un fn ln arg f).1 u un fn ln arg f').1
        rid u ei ≤ 1) := by
  refine ⟨registerEnh_state_idem, fun db u un fn ln arg f f' rid ei hz => ?_⟩
  rw [registerEnh_state_idem]
  rcases registerEnh_referrals db u un fn ln arg f with h | ⟨rb, ei', _, h⟩
  · unfold edgeCount at hz ⊢
    rw [h]
    omega
  · unfold edgeCount at hz ⊢
    rw [h, List.filter_append, List.length_append, hz]
    have : (List.filter (fun (r : ReferralRow) =>
        r.referrer_id == rid && r.referred_id == u && r.event_id == ei)
        [⟨rb, u, ei', db.clock⟩]).length ≤ 1 := by
      simp [List.filter]
      split <;> simp
    omega

/-- C2, witness: user 2 starts twice via referrer 1's code; the second call
leaves the state of the first, and the (1, 2, global) edge exists once. -/
theorem registerEnh_write_once_witness :
    (registerEnh (registerEnh dbC2w 2 none none none (some "REFCODE1") "NEWCODE2").1
      2 none none none (some "REFCODE1") "NEWCODE3").1 =
      (registerEnh dbC2w 2 none none none (some "REFCODE1") "NEWCODE2").1 ∧
    edgeCount
      (registerEnh (registerEnh dbC2w 2 none none none (some "REFCODE1") "NEWCODE2").1
        2 none none none (some "REFCODE1") "NEWCODE3").1 1 2 none ≤ 1 := by
  exact ⟨registerEnh_write_once.1 dbC2w 2 none none none (some "REFCODE1")
      "NEWCODE2" "NEWCODE3",
    registerEnh_write_once.2 dbC2w 2 none none none (some "REFCODE1")
      "NEWCODE2" "NEWCODE3" 1 none (by decide)⟩

/-- C3, amended.  The `/start` flow silently drops a self-referral instead
of raising: every referral edge it creates points at the starting user from
a different user, so the flow never inserts a row with
`referrer_id = referred_id`.  (`Database.add_user` itself checks nothing —
see the counterexample — and no `ValidationError` exists in the code.) -/
theorem registerEnh_no_self_edge (db : DB) (u : Nat) (un fn ln : Option String)
    (arg : Option String) (f : String) (r : ReferralRow)
    (hr : r ∈ (registerEnh db u un fn ln arg f).1.referrals) :
    r ∈ db.referrals ∨ (r.referred_id = u ∧ r.referrer_id ≠ u) := by
  rcases registerEnh_referrals db u un fn ln arg f with h | ⟨rb, ei, hne, h⟩
  · rw [h] at hr
    exact Or.inl hr
  · rw [h] at hr
    rcases List.mem_append.mp hr with h1 | h2
    · exact Or.inl h1
    · right
      rw [List.mem_singleton.mp h2]
      exact ⟨rfl, hne⟩

/-- C3, witness: the edge created when user 2 starts via referrer 1's code
is, as the theorem guarantees, no self-edge. -/
theorem registerEnh_no_self_edge_witness :
    (⟨1, 2, none, 4⟩ : ReferralRow) ∈ dbC3w.referrals ∨
    ((2 : Nat) = 2 ∧ (1 : Nat) ≠ 2) := by
  exact registerEnh_no_self_edge dbC3w 2 none none none (some "REFCODE9")
    "NEWCODE4" ⟨1, 2, none, 4⟩ (by decide)

/-- `str.split` never returns the empty list. -/
theorem pySplitAux_ne_nil (sep : Char) (cs : List Char) :
    ∀ acc, pySplitAux sep cs acc ≠ [] := by
  induction cs with
  | nil => intro acc; simp [pySplitAux]
  | cons c cs ih =>
    intro acc
    unfold pySplitAux
    by_cases h : c = sep
    · rw [if_pos h]
      simp
    · rw [if_neg h]
      exact ih _

/-- A one-part split means the separator does not occur. -/
theorem pySplitAux_single (sep : Char) (cs : List Char) :
    ∀ acc x, pySplitAux sep cs acc = [x] → x = acc.reverse ++ cs ∧ sep ∉ cs := by
  induction cs with
  | nil =>
    intro acc x h
    simp [pySplitAux] at h
    simp [h]
  | cons c cs ih =>
    intro acc x h
    unfold pySplitAux at h
    by_cases hc : c = sep
    · rw [if_pos hc] at h
      simp at h
      exact absurd h.2 (pySplitAux_ne_nil sep cs [])
    · rw [if_neg hc] at h
      obtain ⟨hx, hmem⟩ := ih (c :: acc) x h
      constructor
      · simpa [List.append_assoc] using hx
      · simp only [List.mem_cons, not_or]
        exact ⟨fun h' => hc h'.symm, hmem⟩

/-- A two-part split decomposes the input at its only separator
occurrence. -/
theorem pySplitAux_pair (sep : Char) (cs : List Char) :
    ∀ acc l r, pySplitAux sep cs acc = [l, r] →
      ∃ l₁, l = acc.reverse ++ l₁ ∧ cs = l₁ ++ sep :: r ∧ sep ∉ l₁ ∧ sep ∉ r := by
  induction cs with
  | nil =>
    intro acc l r h
    simp [pySplitAux] at h
  | cons c cs ih =>
    intro acc l r h
    unfold pySplitAux at h
    by_cases hc : c = sep
    · rw [if_pos hc] at h
      simp at h
      obtain ⟨hrx, hmem⟩ := pySplitAux_single sep cs [] r h.2
      simp at hrx
      refine ⟨[], by simp [h.1.symm], ?_, by simp, by rw [hrx]; exact hmem⟩
      rw [hc, hrx]
      simp
    · rw [if_neg hc] at h
      obtain ⟨l₁, hl, hcs, hnl, hnr⟩ := ih (c :: acc) l r h
      refine ⟨c :: l₁, ?_, by simp [hcs], ?_, hnr⟩
      · simpa [List.append_assoc] using hl
      · simp only [List.mem_cons, not_or]
        exact ⟨fun h' => hc h'.symm, hnl⟩

/-- `splitLastAux` walks past a separator-free prefix of the reversed
input and cuts at the first separator it meets. -/
theorem splitLastAux_spec (sep : Char) (pre : List Char) :
    sep ∉ pre → ∀ rest acc, splitLastAux sep (pre ++ sep :: rest) acc =
      some (rest.reverse, pre.reverse ++ acc) := by
  induction pre with
  | nil =>
    intro _ rest acc
    simp [splitLastAux]
  | cons c pre ih =>
    intro hmem rest acc
    have hc : ¬ c = sep := fun h => hmem (by simp [h])
    simp only [List.cons_append]
    unfold splitLastAux
    rw [if_neg hc, ih (fun h => hmem (List.mem_cons_of_mem c h)) rest (c :: acc)]
    simp

/-- A two-part `str.split` result splits the string at its only — hence
also last — separator occurrence, so it agrees with split-at-the-last
separator. -/
theorem pySplit_two_splitLast (sep : Char) (s l r : String)
    (h : pySplit sep s = [l, r]) : splitLast sep s = some (l, r) := by
  unfold pySplit at h
  rcases hsp : pySplitAux sep s.data [] with _ | ⟨x, _ | ⟨y, _ | _⟩⟩ <;>
    rw [hsp] at h <;> simp at h
  obtain ⟨l₁, hl, hcs, hnl, hnr⟩ := pySplitAux_pair sep s.data [] x y hsp
  have hx : x = l.data := congrArg String.data h.1
  have hy : y = r.data := congrArg String.data h.2
  simp at hl
  have hrev : s.data.reverse = y.reverse ++ sep :: l₁.reverse := by
    rw [hcs]
    simp [List.reverse_append]
  unfold splitLast
  rw [hrev, splitLastAux_spec sep y.reverse (by simpa using hnr) l₁.reverse []]
  simp only [List.reverse_reverse, List.append_nil]
  rw [← h.1, ← h.2, hl]

/-- The separator occurs in a string whose `str.split` has two parts. -/
theorem pySplit_two_contains (sep : Char) (s l r : String)
    (h : pySplit sep s = [l, r]) : pyContains sep s = true := by
  unfold pySplit at h
  rcases hsp : pySplitAux sep s.data [] with _ | ⟨x, _ | ⟨y, _ | _⟩⟩ <;>
    rw [hsp] at h <;> simp at h
  obtain ⟨l₁, _, hcs, _, _⟩ := pySplitAux_pair sep s.data [] x y hsp
  show List.elem sep s.data = true
  rw [List.elem_iff, hcs]
  simp

/-- C7, amended.  `enhanced_bot` resolves a composite only when the argument
is no event code as a whole and `split('_')` yields exactly two parts (one
underscore) — in which case the cut is also at the last underscore and the
attribution agrees with the spec's composite rule; the whole argument is
always tried as an event code first; and a bare argument falling through the
event lookup is resolved as a personal referral code (attributed unless it
is the user's own).  (`multipurpose_bot` instead splits at the first
underscore — see the counterexample.) -/
theorem resolveStartArg_amended :
    (∀ (db : DB) (selfId : Nat) (arg l r : String),
      getEventByCode db arg = none →
      pySplit '_' arg = [l, r] →
      splitLast '_' arg = some (l, r) ∧
      resolveStartArg db selfId arg =
        .referral (specResolveComposite db selfId arg).1
          (specResolveComposite db selfId arg).2) ∧
    (∀ (db : DB) (selfId : Nat) (arg : String) (e : EventRow),
      getEventByCode db arg = some e →
      resolveStartArg db selfId arg = .eventJoin e) ∧
    (∀ (db : DB) (selfId : Nat) (arg : String),
      getEventByCode db arg = none →
      pyContains '_' arg = false →
      resolveStartArg db selfId arg =
        match getUserByReferralCode db arg with
        | some referrer =>
          if referrer.user_id ≠ selfId then .referral (some referrer.user_id) none
          else .referral none none
        | none => .referral none none) := by
  refine ⟨fun db selfId arg l r hev hsplit => ?_, fun db selfId arg e hev => ?_,
    fun db selfId arg hev hc => ?_⟩
  · have hlast := pySplit_two_splitLast '_' arg l r hsplit
    have hcont := pySplit_two_contains '_' arg l r hsplit
    refine ⟨hlast, ?_⟩
    unfold resolveStartArg specResolveComposite
    rw [hev, hlast, if_pos hcont, hsplit]
    cases hul : getUserByReferralCode db l with
    | none => simp [hul]
    | some referrer =>
      cases her : getEventByCode db r with
      | none => simp [hul, her]
      | some e =>
        simp only [hul, her]
        by_cases hne : referrer.user_id ≠ selfId
        · rw [if_pos hne, if_pos hne]
        · rw [if_neg hne, if_neg hne]
  · unfold resolveStartArg
    rw [hev]
  · unfold resolveStartArg
    rw [hev, if_neg (by simp [hc])]

/-- C7, witness: the spec's scenario — `ABC123` is user 1's code, `EVT001`
an active event — resolved through the amended characterization attributes
the new user to referrer 1 within event 1, and the cut is at the last
underscore. -/
theorem resolveStartArg_amended_witness :
    splitLast '_' "ABC123_EVT001" = some ("ABC123", "EVT001") ∧
    resolveStartArg dbC7w 2 "ABC123_EVT001" = .referral (some 1) (some 1) := by
  have h := resolveStartArg_amended.1 dbC7w 2 "ABC123_EVT001" "ABC123" "EVT001"
    (by decide) (by decide)
  refine ⟨h.1, ?_⟩
  rw [h.2]
  decide

end MBola
